import Mathlib

/-!
Verification development for the jobfinder repository.

The embedding models `backend/service.py` (the HTML scraping search
pipeline), `backend/scheduler.py` (the change detector) and, where the
repository ships only tests or callers of a component, the component as
described by the specification (each such definition is marked
"Modelled from the spec:" in its doc comment).

External collaborators (the HTTP session, BeautifulSoup, dateparser) are
modelled as oracle functions passed in as parameters: `F : Nat -> String`
is the html text returned for an upstream page index (the empty string
models a 404 / missing page, exactly as `_fetch_list_html` returns ""),
`P : String -> List Offer` is the card extraction of `_parse_list_html`
before its final sort, and `T : String -> Option Nat` is
`_total_from_list_html`.  Timestamps are modelled as `Nat`, with `0`
playing the role of `datetime.min` (every Python datetime is
`datetime.min` plus a nonnegative offset).
-/

/-- A record produced by `_parse_list_html` in `backend/service.py`:
the dict with keys title, url, location, employer, date.  The date field
holds the already-parsed timestamp of the iso string stored by the code
(`_parse_any_iso` on `dt.isoformat()` round-trips to the same datetime). -/
structure Offer where
  title : String
  url : Option String
  location : Option String
  employer : Option String
  date : Option Nat
deriving DecidableEq, Repr

/-- The sort key used by `_parse_list_html` and
`_html_fetch_range_with_total`: `_parse_any_iso(o.get("date"))`, with a
missing date mapped to the minimum timestamp. -/
def sortKey (o : Offer) : Nat :=
  o.date.getD 0

/-- Python `list.sort(key=..., reverse=True)` sorts stably with dates
descending: an element goes before another exactly when its key is
greater or equal, keeping the original order on ties. -/
def dateGe (a b : Offer) : Prop :=
  sortKey b ≤ sortKey a

instance : DecidableRel dateGe := fun a b =>
  inferInstanceAs (Decidable (sortKey b ≤ sortKey a))

instance : IsTotal Offer dateGe :=
  ⟨fun a b => (Nat.le_total (sortKey b) (sortKey a)).elim Or.inl Or.inr⟩

instance : IsTrans Offer dateGe :=
  ⟨fun _ _ _ hab hbc => Nat.le_trans hbc hab⟩

/-- The stable descending-by-date sort performed by
`out.sort(key=..., reverse=True)` and `slice_.sort(key=..., reverse=True)`. -/
def sortByDateDesc (l : List Offer) : List Offer :=
  List.insertionSort dateGe l

/-- `_parse_list_html`: empty html gives no records, otherwise the
extracted cards (oracle `P`) sorted by date descending. -/
def parseListHtml (P : String → List Offer) (html : String) : List Offer :=
  if html = "" then [] else sortByDateDesc (P html)

/-- The dedup key of `_html_collect_until`: the pair
`(it.get("title"), it.get("url"))`. -/
def dkey (o : Offer) : String × Option String :=
  (o.title, o.url)

/-- The dedup pass at the end of `_html_collect_until`: walk the
collected list, keep an item whose (title, url) key has not been seen
yet, record its key, skip repeats. -/
def dedupeGo (seen : List (String × Option String)) : List Offer → List Offer
  | [] => []
  | it :: rest =>
    if dkey it ∈ seen then dedupeGo seen rest
    else it :: dedupeGo (dkey it :: seen) rest

/-- Dedup by (title, url) starting from an empty seen set. -/
def dedupeTitleUrl (l : List Offer) : List Offer :=
  dedupeGo [] l

/-- The accumulation loop of `_html_collect_until`.  `fuel` is a pure
termination device kept equal to `501 - page`; the stopping conditions
are exactly those of the source: enough items collected, empty html,
empty parse, or the hard page ceiling `page + 1 > 500`.  The third
component is the trace of upstream page indices fetched. -/
def collectGo (F : Nat → String) (P : String → List Offer) (T : String → Option Nat)
    (needed : Nat) : Nat → Nat → List Offer → Option Nat → List Nat →
    List Offer × Option Nat × List Nat
  | 0, _, c, t, tr => (c, t, tr)
  | fuel + 1, page, c, t, tr =>
    if needed ≤ c.length then (c, t, tr)
    else if F page = "" then (c, t, tr ++ [page])
    else if parseListHtml P (F page) = [] then
      (c, (if page = 1 then T (F page) else t), tr ++ [page])
    else if 500 < page + 1 then
      (c ++ parseListHtml P (F page), (if page = 1 then T (F page) else t), tr ++ [page])
    else
      collectGo F P T needed fuel (page + 1) (c ++ parseListHtml P (F page))
        (if page = 1 then T (F page) else t) (tr ++ [page])

/-- The raw (pre-dedup) accumulated list of `_html_collect_until`. -/
def collectedRaw (F : Nat → String) (P : String → List Offer) (T : String → Option Nat)
    (needed : Nat) : List Offer :=
  (collectGo F P T needed 500 1 [] none []).1

/-- `_html_collect_until`: accumulate pages then dedup by (title, url);
also returns the estimated total and the trace of fetched page indices. -/
def htmlCollectUntil (F : Nat → String) (P : String → List Offer) (T : String → Option Nat)
    (needed : Nat) : List Offer × Option Nat × List Nat :=
  let r := collectGo F P T needed 500 1 [] none []
  (dedupeTitleUrl r.1, r.2.1, r.2.2)

/-- `_html_fetch_range_with_total`: accumulate until `page * page_size`
items, slice `[start:end]`, re-sort the slice by date descending. -/
def htmlFetchRangeWithTotal (F : Nat → String) (P : String → List Offer)
    (T : String → Option Nat) (page pageSize : Nat) :
    List Offer × Option Nat × List Nat :=
  let start := (page - 1) * pageSize
  let r := htmlCollectUntil F P T (start + pageSize)
  (sortByDateDesc ((r.1.drop start).take pageSize), r.2.1, r.2.2)

/-- The SEARCH_MODE configuration value of `backend/service.py`. -/
inductive SearchMode where
  | html
  | ajax
  | auto
deriving DecidableEq, Repr

/-- Python falsiness of the optional query string: None or "". -/
def queryFalsy : Option String → Bool
  | none => true
  | some s => s == ""

/-- `_ajax_first_page_with_total`: empty ajax payload gives ([], None);
otherwise parse the payload and read the total from the public page 1
html when that is nonempty. -/
def ajaxFirstPage (F : Nat → String) (P : String → List Offer)
    (T : String → Option Nat) (ajaxHtml : String) : List Offer × Option Nat :=
  if ajaxHtml = "" then ([], none)
  else (parseListHtml P ajaxHtml, if F 1 = "" then none else T (F 1))

/-- The AJAX fallback branch of `search_offers_with_total`.  `aR` models
an exception escaping this branch (its internal fetches are not wrapped
in any try block); the trace records the page-1 fetches this branch
performs (nonce fetch, and total fetch when the payload is nonempty). -/
def ajaxBranch (F : Nat → String) (P : String → List Offer) (T : String → Option Nat)
    (aR : Bool) (ajaxHtml : String) (n p : Nat) (tr0 : List Nat) :
    Option (List Offer × Option Nat) × List Nat :=
  if aR then (none, tr0)
  else
    let fp := ajaxFirstPage F P T ajaxHtml
    if p = 1 then (some (fp.1.take n, fp.2), tr0 ++ [1])
    else (some ([], fp.2), tr0 ++ [1])

/-- The mode dispatch of `search_offers_with_total` after normalization:
the html branch is tried for modes html and auto with its exception
swallowed (`hR` models any exception raised while fetching or parsing,
`partialTrace` the fetches issued before it); the ajax branch runs for
modes ajax and auto; in mode html an exception falls off the end of the
function, which in Python returns None. -/
def searchCore (mode : SearchMode) (F : Nat → String) (P : String → List Offer)
    (T : String → Option Nat) (hR aR : Bool) (partialTrace : List Nat)
    (ajaxHtml : String) (n p : Nat) : Option (List Offer × Option Nat) × List Nat :=
  match mode with
  | SearchMode.html =>
    if hR then (none, partialTrace)
    else
      let r := htmlFetchRangeWithTotal F P T p n
      (some (r.1, r.2.1), r.2.2)
  | SearchMode.auto =>
    if hR then ajaxBranch F P T aR ajaxHtml n p partialTrace
    else
      let r := htmlFetchRangeWithTotal F P T p n
      (some (r.1, r.2.1), r.2.2)
  | SearchMode.ajax => ajaxBranch F P T aR ajaxHtml n p []

/-- `search_offers_with_total` with its fetch trace: normalize page to a
floor of 1 and page_size below 1 to 10, short-circuit a falsy query to
([], 0) with no fetch, then dispatch on the mode. -/
def searchFull (mode : SearchMode) (F : Nat → String) (P : String → List Offer)
    (T : String → Option Nat) (hR aR : Bool) (partialTrace : List Nat)
    (ajaxHtml : String) (query : Option String) (pageSize page : Int) :
    Option (List Offer × Option Nat) × List Nat :=
  if queryFalsy query then (some ([], some 0), [])
  else
    searchCore mode F P T hR aR partialTrace ajaxHtml
      ((if pageSize < 1 then 10 else pageSize).toNat)
      ((if page < 1 then 1 else page).toNat)

/-- `search_offers_with_total` as seen by its caller: `none` models the
implicit Python `None` return reached when the html branch raised in
mode html (no branch returns). -/
def searchOffersWithTotal (mode : SearchMode) (F : Nat → String)
    (P : String → List Offer) (T : String → Option Nat) (hR aR : Bool)
    (partialTrace : List Nat) (ajaxHtml : String) (query : Option String)
    (pageSize page : Int) : Option (List Offer × Option Nat) :=
  (searchFull mode F P T hR aR partialTrace ajaxHtml query pageSize page).1

/-- `search_offers`: unpacks the pair from `search_offers_with_total`;
when that value is Python None the unpacking raises TypeError, modelled
by `none`. -/
def searchOffers (mode : SearchMode) (F : Nat → String) (P : String → List Offer)
    (T : String → Option Nat) (hR aR : Bool) (partialTrace : List Nat)
    (ajaxHtml : String) (query : Option String) (pageSize page : Int) :
    Option (List Offer) :=
  (searchOffersWithTotal mode F P T hR aR partialTrace ajaxHtml query pageSize page).map
    (fun r => r.1)

/-- The string normalization at the top of `_parse_any_iso`:
`dt_str.strip().replace("Z", "+00:00")`. -/
def normIso (s : String) : String :=
  (s.trim).replace "Z" "+00:00"

/-- `_parse_any_iso` of `backend/service.py`.  The two external parsers
are oracles: `fromiso s = none` models `datetime.fromisoformat` raising,
`dp s = none` models `dateparser.parse` raising and `dp s = some none`
models it returning None; a successful parse yields the timestamp after
the timezone normalization the code applies.  Every failure path of the
source returns the minimum timestamp, modelled as 0. -/
def parseAnyIso (fromiso : String → Option Nat) (dp : String → Option (Option Nat)) :
    Option String → Nat
  | none => 0
  | some str =>
    if str = "" then 0
    else
      match fromiso (normIso str) with
      | some t => t
      | none =>
        match dp (normIso str) with
        | some (some t) => t
        | some none => 0
        | none => 0

/-- Modelled from the spec: the content hash of (title, date) used as
the last component of the stable identity key (spec section 3); the
repository source has no such function, only the id-field extraction.
An injective stand-in keeps the model deterministic. -/
def contentHash (title : String) (date : Option Nat) : String :=
  "hash:" ++ title ++ "|" ++ (date.map toString).getD "none"

/-- Modelled from the spec: the stable identity key of a parsed offer
(spec section 3), derived in priority order from an explicit id field,
else the URL, else a content hash of (title, date).  Records produced by
the html list parser carry no id field, so for `Offer` the id component
is always absent. -/
def identityKey (o : Offer) : String :=
  o.url.getD (contentHash o.title o.date)

/-- A raw offer dict as handled by `extract_offer_id`: an association
list from field names to optional string values (a key present with
value None is modelled as `some (k, none)`). -/
abbrev RawOffer := List (String × Option String)

/-- Python `off.get(key)`: the value of the first matching key, None
when absent. -/
def rawGet (off : RawOffer) (k : String) : Option String :=
  match off.find? (fun kv => kv.1 = k) with
  | some kv => kv.2
  | none => none

/-- The candidate id keys of `extract_offer_id`, in source order. -/
def idKeys : List String :=
  ["id", "_id", "offer_id", "reference", "ref"]

/-- The key loop of `extract_offer_id`: return the first candidate key
whose value is not None. -/
def extractFrom (off : RawOffer) : List String → Option String
  | [] => none
  | k :: ks =>
    match rawGet off k with
    | some v => some v
    | none => extractFrom off ks

/-- `extract_offer_id` of `backend/service.py`. -/
def extractOfferId (off : RawOffer) : Option String :=
  extractFrom off idKeys

/-- The dict literal built by `_parse_list_html` for each card, as a raw
offer; `render` turns the model timestamp back into the iso string the
code stores. -/
def offerToRaw (render : Nat → String) (o : Offer) : RawOffer :=
  [("title", some o.title), ("url", o.url), ("location", o.location),
   ("employer", o.employer), ("date", o.date.map render)]

/-- The events of one `check_once` run in `backend/scheduler.py`, in
execution order: a row inserted into the seen table, the commit, and the
two notification calls. -/
inductive SchedEvent where
  | insertSeen (oid : String)
  | commitSeen
  | emailSend
  | ntfySend
deriving DecidableEq, Repr

/-- The offer filter of the `check_once` loop: keep offers whose
extracted id exists and is not in the seen set loaded at the start of
the iteration (the set is not updated inside the loop). -/
def newItems (seen : List String) (offers : List RawOffer) : List RawOffer :=
  offers.filter (fun off =>
    match extractOfferId off with
    | none => false
    | some oid => decide (oid ∉ seen))

/-- The ids passed to INSERT OR IGNORE, in loop order. -/
def insertedIds (seen : List String) (offers : List RawOffer) : List String :=
  (newItems seen offers).filterMap extractOfferId

/-- INSERT OR IGNORE into the seen table (primary key on offer_id). -/
def dbInsert (db : List String) (oid : String) : List String :=
  if oid ∈ db then db else db ++ [oid]

/-- The seen table after one saved-search iteration of `check_once`. -/
def dbAfter (db : List String) (offers : List RawOffer) : List String :=
  (insertedIds db offers).foldl dbInsert db

/-- The event trace of one saved-search iteration of `check_once`: the
inserts as the loop encounters new offers, then `con.commit()`, then
`send_email` and `send_ntfy` when any new item was found. -/
def searchEvents (db : List String) (offers : List RawOffer) : List SchedEvent :=
  ((insertedIds db offers).map SchedEvent.insertSeen) ++ [SchedEvent.commitSeen] ++
    (if (newItems db offers).isEmpty then [] else [SchedEvent.emailSend, SchedEvent.ntfySend])

/-- The `check_once` loop over saved searches, threading the seen table
through the per-search commits.  The offers for a query come from an
oracle `offersFor`; the source calls `search_offers(query=query,
limit=50)`, a signature only the service variant absent from the
repository source accepts, so the fetch itself is abstracted. -/
def checkOnceGo (offersFor : String → List RawOffer) :
    List (String × Option String) → List String → List SchedEvent
  | [], _ => []
  | (q, _) :: rest, db =>
    searchEvents db (offersFor q) ++ checkOnceGo offersFor rest (dbAfter db (offersFor q))

/-- The full event trace of `check_once` for a list of saved searches
starting from a given seen table. -/
def checkOnceTrace (offersFor : String → List RawOffer)
    (searches : List (String × Option String)) (db0 : List String) : List SchedEvent :=
  checkOnceGo offersFor searches db0

/-- Lexicographic strict order on strings, by character code points. -/
def strLt (a b : String) : Prop :=
  List.Lex (fun c d : Char => c < d) a.data b.data

/-- Lexicographic order on strings, by character code points. -/
def strLe (a b : String) : Prop :=
  strLt a b ∨ a = b

instance : DecidableRel strLt := fun a b => by
  unfold strLt; infer_instance

instance : DecidableRel strLe := fun a b => by
  unfold strLe; infer_instance

/-- Modelled from the spec: the two-key order of the Ranker (spec
section 4.4): date descending first, identity key ascending
(lexicographic) on ties.  The ranked accumulation cache is absent from
the repository source; only its tests reference it. -/
def specGe (a b : Offer) : Prop :=
  sortKey b < sortKey a ∨ (sortKey a = sortKey b ∧ strLe (identityKey a) (identityKey b))

instance : DecidableRel specGe := fun a b =>
  inferInstanceAs
    (Decidable (sortKey b < sortKey a ∨ (sortKey a = sortKey b ∧ strLe (identityKey a) (identityKey b))))

/-- Modelled from the spec: keep the first occurrence per identity key
(spec section 4.4). -/
def dedupeByIdGo (seen : List String) : List Offer → List Offer
  | [] => []
  | it :: rest =>
    if identityKey it ∈ seen then dedupeByIdGo seen rest
    else it :: dedupeByIdGo (identityKey it :: seen) rest

/-- Modelled from the spec: `rank_and_dedupe` of the Ranker (spec
section 4.4): drop repeats by identity key in first-appearance order,
then sort by the two-key order. -/
def rankAndDedupe (l : List Offer) : List Offer :=
  List.insertionSort specGe (dedupeByIdGo [] l)

/-- Modelled from the spec: a per-query accumulation entry (spec
section 3).  The stop condition "an upstream page returns no
new-has-more signal" (spec section 4.5) is persisted as `exhausted`, so
that a resumed extension does not refetch pages, as required by the
idempotent-caching property (spec section 8). -/
structure CacheEntry where
  records : List Offer
  lastPage : Nat
  exhausted : Bool
  fetchedAt : Nat
deriving DecidableEq, Repr

/-- Modelled from the spec: the process-wide accumulation cache keyed by
query string (spec section 4.5). -/
abbrev Store := List (String × CacheEntry)

/-- Modelled from the spec: keyed lookup in the accumulation cache. -/
def storeFind (q : String) : Store → Option CacheEntry
  | [] => none
  | (k, e) :: st => if k = q then some e else storeFind q st

/-- Modelled from the spec: keyed write-back into the accumulation
cache; the newest entry shadows older ones. -/
def storeWrite (q : String) (e : CacheEntry) (st : Store) : Store :=
  (q, e) :: st

/-- Modelled from the spec: the output state of the extension loop of
`get_or_extend` (spec section 4.5). -/
structure LoopOut where
  recs : List Offer
  page : Nat
  exh : Bool
  trace : List Nat
deriving Repr

/-- Modelled from the spec: the extension loop of `get_or_extend` (spec
section 4.5): while held count is below the needed count, more pages are
believed available and the page ceiling is not hit, fetch the next
upstream page, rank and dedup the cumulative set and advance the
counter.  `fuel` is a pure termination device kept at `500 - page`. -/
def extendLoop (fetchPage : Nat → List Offer × Bool) (needed : Nat) :
    Nat → List Offer → Nat → Bool → List Nat → LoopOut
  | 0, recs, page, exh, tr => ⟨recs, page, exh, tr⟩
  | fuel + 1, recs, page, exh, tr =>
    if needed ≤ recs.length ∨ exh = true ∨ 500 ≤ page then ⟨recs, page, exh, tr⟩
    else
      extendLoop fetchPage needed fuel
        (rankAndDedupe (recs ++ (fetchPage (page + 1)).1)) (page + 1)
        (!(fetchPage (page + 1)).2) (tr ++ [page + 1])

/-- Modelled from the spec: `get_or_extend` of the Accumulation Cache
(spec section 4.5): on a hit within the TTL and not forced, start from
the cached ranked sequence and the last consumed upstream page index;
otherwise start fresh; extend as needed and write the updated entry back
with a refreshed timestamp before returning. -/
def getOrExtend (fetchPage : Nat → List Offer × Bool) (now ttl : Nat) (q : String)
    (needed : Nat) (force : Bool) (st : Store) : List Offer × Store × List Nat :=
  let s0 : List Offer × Nat × Bool :=
    match storeFind q st with
    | some e =>
      if force = false ∧ now - e.fetchedAt ≤ ttl then (e.records, e.lastPage, e.exhausted)
      else ([], 0, false)
    | none => ([], 0, false)
  let o := extendLoop fetchPage needed (500 - s0.2.1) s0.1 s0.2.1 s0.2.2 []
  (o.recs, storeWrite q ⟨o.recs, o.page, o.exh, now⟩ st, o.trace)

/-- Modelled from the spec: `search(query, page, page_size,
force_refresh)` of the Pagination Engine over the Accumulation Cache
(spec section 4.6): ensure `page * page_size` ranked records, then slice
the exact window. -/
def searchCached (fetchPage : Nat → List Offer × Bool) (now ttl : Nat) (q : String)
    (page pageSize : Nat) (force : Bool) (st : Store) :
    List Offer × Store × List Nat :=
  let r := getOrExtend fetchPage now ttl q (page * pageSize) force st
  ((r.1.drop ((page - 1) * pageSize)).take pageSize, r.2.1, r.2.2)

/-- The (title, url) keys accumulated by the dedup pass after consuming
a list of items, used to relate dedup of a list to dedup of its
extensions. -/
def seenAfter (seen : List (String × Option String)) : List Offer → List (String × Option String)
  | [] => seen
  | it :: rest =>
    if dkey it ∈ seen then seenAfter seen rest
    else seenAfter (dkey it :: seen) rest

/-- Fixture offer: url u, title X, newest date. -/
def offA : Offer :=
  { title := "X", url := some "u", location := none, employer := none, date := some 5 }

/-- Fixture offer: same url u as `offA` but a different title. -/
def offB : Offer :=
  { title := "Y", url := some "u", location := none, employer := none, date := some 4 }

/-- Fixture upstream html: two nonempty pages, then nothing. -/
def fixF : Nat → String := fun p =>
  if p = 1 then "p1" else if p = 2 then "p2" else ""

/-- Fixture parse: page 1 holds `offA`, page 2 holds `offB`. -/
def fixP : String → List Offer := fun h =>
  if h = "p1" then [offA] else if h = "p2" then [offB] else []

/-- Fixture total extraction: never finds a count. -/
def fixT : String → Option Nat := fun _ => none

/-- Fixture offer with the larger identity key but listed first. -/
def offC : Offer :=
  { title := "T", url := some "kb", location := none, employer := none, date := some 7 }

/-- Fixture offer with the smaller identity key, same date as `offC`. -/
def offD : Offer :=
  { title := "T2", url := some "ka", location := none, employer := none, date := some 7 }

/-- Fixture upstream html: a single nonempty page. -/
def fixF2 : Nat → String := fun p => if p = 1 then "q1" else ""

/-- Fixture parse: the single page holds `offC` then `offD` (equal dates). -/
def fixP2 : String → List Offer := fun h => if h = "q1" then [offC, offD] else []

/-- Fixture offer number i, with a distinct title and no date. -/
def offN (i : Nat) : Offer :=
  { title := "t" ++ toString i, url := none, location := none, employer := none, date := none }

/-- Fixture upstream html: a single page r1. -/
def fixF3 : Nat → String := fun p => if p = 1 then "r1" else ""

/-- Fixture parse: page r1 holds ten distinct offers. -/
def fixP3 : String → List Offer := fun h =>
  if h = "r1" then (List.range 10).map offN else []

/-- Fixture upstream that always answers with an empty page. -/
def emptyF : Nat → String := fun _ => ""

/-- Fixture saved searches for the change detector. -/
def fixSearches : List (String × Option String) :=
  [("q", some "dest@example.org")]

/-- Fixture offers for the change detector: one offer with id 1. -/
def fixOffersFor : String → List RawOffer := fun _ => [[("id", some "1")]]

/-- Fixture raw offer with no id-like key. -/
def rawNoId : RawOffer :=
  [("title", some "A"), ("url", none), ("location", none), ("employer", none), ("date", none)]

/-- Fixture upstream for the cache model: always exhausted. -/
def zeroFetch : Nat → List Offer × Bool := fun _ => ([], false)

/-- Fixture iso parser that always fails. -/
def fiNone : String → Option Nat := fun _ => none

/-- Fixture free-text date parser that always fails. -/
def dpNone : String → Option (Option Nat) := fun _ => none

theorem dedupeGo_append (m : List Offer) :
    ∀ (l : List Offer) (seen : List (String × Option String)),
    dedupeGo seen (l ++ m) = dedupeGo seen l ++ dedupeGo (seenAfter seen l) m := by
  intro l
  induction l with
  | nil => intro seen; simp [dedupeGo, seenAfter]
  | cons it rest ih =>
    intro seen
    by_cases h : dkey it ∈ seen <;> simp [dedupeGo, seenAfter, h, ih]

theorem mem_dedupeGo_not_seen :
    ∀ (l : List Offer) (seen : List (String × Option String)) (a : Offer),
    a ∈ dedupeGo seen l → dkey a ∉ seen := by
  intro l
  induction l with
  | nil => intro seen a ha; simp [dedupeGo] at ha
  | cons it rest ih =>
    intro seen a ha
    by_cases h : dkey it ∈ seen
    · rw [dedupeGo, if_pos h] at ha
      exact ih seen a ha
    · rw [dedupeGo, if_neg h] at ha
      rcases List.mem_cons.mp ha with rfl | ha2
      · exact h
      · intro hmem
        exact ih _ a ha2 (List.mem_cons_of_mem _ hmem)

theorem dedupeGo_pairwise_ne :
    ∀ (l : List Offer) (seen : List (String × Option String)),
    List.Pairwise (fun a b => dkey a ≠ dkey b) (dedupeGo seen l) := by
  intro l
  induction l with
  | nil => intro seen; simp [dedupeGo]
  | cons it rest ih =>
    intro seen
    by_cases h : dkey it ∈ seen
    · rw [dedupeGo, if_pos h]; exact ih seen
    · rw [dedupeGo, if_neg h]
      refine List.Pairwise.cons ?_ (ih _)
      intro b hb heq
      exact mem_dedupeGo_not_seen rest _ b hb (heq ▸ List.mem_cons_self _ _)

theorem dedupeGo_filter_mem :
    ∀ (l : List Offer) (seen : List (String × Option String)) (k : String × Option String),
    k ∈ seen → (dedupeGo seen l).filter (fun x => decide (dkey x = k)) = [] := by
  intro l
  induction l with
  | nil => intro seen k _; simp [dedupeGo]
  | cons it rest ih =>
    intro seen k hk
    by_cases h : dkey it ∈ seen
    · rw [dedupeGo, if_pos h]; exact ih seen k hk
    · rw [dedupeGo, if_neg h]
      have hne : ¬ dkey it = k := fun he => h (he ▸ hk)
      simp [List.filter_cons, decide_eq_false hne, ih _ k (List.mem_cons_of_mem _ hk)]

theorem dedupeGo_filter_not_mem :
    ∀ (l : List Offer) (seen : List (String × Option String)) (k : String × Option String),
    k ∉ seen →
    (dedupeGo seen l).filter (fun x => decide (dkey x = k)) =
      (l.filter (fun x => decide (dkey x = k))).take 1 := by
  intro l
  induction l with
  | nil => intro seen k _; simp [dedupeGo]
  | cons it rest ih =>
    intro seen k hk
    by_cases h : dkey it ∈ seen
    · rw [dedupeGo, if_pos h]
      have hne : ¬ dkey it = k := fun he => hk (he ▸ h)
      rw [ih seen k hk]
      simp [List.filter_cons, decide_eq_false hne]
    · rw [dedupeGo, if_neg h]
      by_cases hik : dkey it = k
      · have hmem : k ∈ dkey it :: seen := hik ▸ List.mem_cons_self _ _
        have hfilt := dedupeGo_filter_mem rest (dkey it :: seen) k hmem
        simp [List.filter_cons, hik, hfilt]
        intro a ha he
        exact mem_dedupeGo_not_seen rest _ a ha (he ▸ List.mem_cons_self _ _)
      · have hk2 : k ∉ dkey it :: seen := by
          intro hc
          rcases List.mem_cons.mp hc with he | he
          · exact hik he.symm
          · exact hk he
        simp [List.filter_cons, decide_eq_false hik, ih _ k hk2]

theorem collectGo_extends (F : Nat → String) (P : String → List Offer)
    (T : String → Option Nat) (needed : Nat) :
    ∀ (fuel page : Nat) (c : List Offer) (t : Option Nat) (tr : List Nat),
    ∃ d, (collectGo F P T needed fuel page c t tr).1 = c ++ d := by
  intro fuel
  induction fuel with
  | zero => intro page c t tr; exact ⟨[], by simp [collectGo]⟩
  | succ fuel ih =>
    intro page c t tr
    rw [collectGo]
    set t1 := (if page = 1 then T (F page) else t) with ht1
    split_ifs with h1 h2 h3 h4
    · exact ⟨[], by simp⟩
    · exact ⟨[], by simp⟩
    · exact ⟨[], by simp⟩
    · exact ⟨parseListHtml P (F page), rfl⟩
    · obtain ⟨d, hd⟩ := ih (page + 1) (c ++ parseListHtml P (F page)) t1 (tr ++ [page])
      exact ⟨parseListHtml P (F page) ++ d, by rw [hd, List.append_assoc]⟩

theorem collectGo_mono (F : Nat → String) (P : String → List Offer)
    (T : String → Option Nat) {n m : Nat} (hnm : n ≤ m) :
    ∀ (fuel page : Nat) (c : List Offer) (t : Option Nat) (tr : List Nat),
    ∃ d, (collectGo F P T m fuel page c t tr).1 = (collectGo F P T n fuel page c t tr).1 ++ d := by
  intro fuel
  induction fuel with
  | zero => intro page c t tr; exact ⟨[], by simp [collectGo]⟩
  | succ fuel ih =>
    intro page c t tr
    by_cases h1 : n ≤ c.length
    · have hn : collectGo F P T n (fuel + 1) page c t tr = (c, t, tr) := by
        rw [collectGo, if_pos h1]
      rw [hn]
      exact collectGo_extends F P T m (fuel + 1) page c t tr
    · have h1m : ¬ m ≤ c.length := fun hm => h1 (Nat.le_trans hnm hm)
      rw [collectGo, collectGo, if_neg h1, if_neg h1m]
      set t1 := (if page = 1 then T (F page) else t) with ht1
      split_ifs with h2 h3 h4
      · exact ⟨[], by simp⟩
      · exact ⟨[], by simp⟩
      · exact ⟨[], by simp⟩
      · exact ih (page + 1) (c ++ parseListHtml P (F page)) t1 (tr ++ [page])

theorem collectGo_trace (F : Nat → String) (P : String → List Offer)
    (T : String → Option Nat) (needed : Nat) :
    ∀ (fuel page : Nat) (c : List Offer) (t : Option Nat) (tr : List Nat),
    ∃ k, (collectGo F P T needed fuel page c t tr).2.2 = tr ++ List.range' page k ∧ k ≤ fuel := by
  intro fuel
  induction fuel with
  | zero =>
    intro page c t tr
    exact ⟨0, by simp [collectGo], Nat.le_refl 0⟩
  | succ fuel ih =>
    intro page c t tr
    rw [collectGo]
    set t1 := (if page = 1 then T (F page) else t) with ht1
    split_ifs with h1 h2 h3 h4
    · exact ⟨0, by simp, Nat.zero_le _⟩
    · exact ⟨1, by simp [List.range'], Nat.succ_le_succ (Nat.zero_le _)⟩
    · exact ⟨1, by simp [List.range'], Nat.succ_le_succ (Nat.zero_le _)⟩
    · exact ⟨1, by simp [List.range'], Nat.succ_le_succ (Nat.zero_le _)⟩
    · obtain ⟨k, hk, hle⟩ := ih (page + 1) (c ++ parseListHtml P (F page)) t1 (tr ++ [page])
      refine ⟨k + 1, ?_, Nat.succ_le_succ hle⟩
      rw [hk]
      simp [List.range']

/-- Claim C8: for every query (modelled by the oracles) and every needed
count, the accumulation loop of `_html_collect_until` fetches at most
500 upstream page indices, all distinct, so the loop always terminates
regardless of whether pages keep returning items. -/
theorem collect_until_trace_bounded (F : Nat → String) (P : String → List Offer)
    (T : String → Option Nat) (needed : Nat) :
    (htmlCollectUntil F P T needed).2.2.length ≤ 500 ∧
      (htmlCollectUntil F P T needed).2.2.Nodup := by
  obtain ⟨k, hk, hle⟩ := collectGo_trace F P T needed 500 1 [] none []
  have h2 : (htmlCollectUntil F P T needed).2.2 = List.range' 1 k := by
    simpa [htmlCollectUntil] using hk
  rw [h2]
  exact ⟨by simpa using hle, List.nodup_range' 1 k⟩

theorem dedupeTitleUrl_mono {l l2 : List Offer} (h : ∃ d, l2 = l ++ d) :
    ∃ d2, dedupeTitleUrl l2 = dedupeTitleUrl l ++ d2 := by
  obtain ⟨d, rfl⟩ := h
  exact ⟨dedupeGo (seenAfter [] l) d, dedupeGo_append d l []⟩

theorem range_result_mem_bucket (F : Nat → String) (P : String → List Offer)
    (T : String → Option Nat) (page pageSize : Nat) (o : Offer)
    (h : o ∈ (htmlFetchRangeWithTotal F P T page pageSize).1) :
    o ∈ ((dedupeTitleUrl (collectedRaw F P T ((page - 1) * pageSize + pageSize))).drop
      ((page - 1) * pageSize)).take pageSize := by
  have hperm := List.perm_insertionSort dateGe
    (((htmlCollectUntil F P T ((page - 1) * pageSize + pageSize)).1.drop
      ((page - 1) * pageSize)).take pageSize)
  have h2 : o ∈ ((htmlCollectUntil F P T ((page - 1) * pageSize + pageSize)).1.drop
      ((page - 1) * pageSize)).take pageSize := by
    refine (hperm.mem_iff).mp ?_
    simpa [htmlFetchRangeWithTotal, sortByDateDesc] using h
  simpa [htmlCollectUntil, collectedRaw] using h2

/-- Core of the pagination property: any offer served on page 1 and any
offer served on page 2 (same page size, same upstream) occupy distinct
positions of the deduplicated accumulation, hence have distinct
(title, url) dedup keys. -/
theorem fetch_range_pages_disjoint_dkeys (F : Nat → String) (P : String → List Offer)
    (T : String → Option Nat) (s : Nat) (o1 o2 : Offer)
    (h1 : o1 ∈ (htmlFetchRangeWithTotal F P T 1 s).1)
    (h2 : o2 ∈ (htmlFetchRangeWithTotal F P T 2 s).1) :
    dkey o1 ≠ dkey o2 := by
  have m1 := range_result_mem_bucket F P T 1 s o1 h1
  have m2 := range_result_mem_bucket F P T 2 s o2 h2
  have e1 : ((1 : Nat) - 1) * s = 0 := by omega
  have e2 : ((2 : Nat) - 1) * s = s := by omega
  simp only [e1, List.drop_zero, Nat.zero_add] at m1
  simp only [e2] at m2
  have hraw : ∃ d, collectedRaw F P T (s + s) = collectedRaw F P T s ++ d := by
    simpa [collectedRaw] using
      collectGo_mono F P T (by omega : s ≤ s + s) 500 1 [] none []
  obtain ⟨d2, hb⟩ := dedupeTitleUrl_mono hraw
  set b1 := dedupeTitleUrl (collectedRaw F P T s) with hb1
  set b2 := dedupeTitleUrl (collectedRaw F P T (s + s)) with hb2
  have m1b : o1 ∈ b2.take s := by
    rw [hb, List.take_append_eq_append_take]
    exact List.mem_append_left _ m1
  have m2c : o2 ∈ b2.drop s := List.take_subset _ _ m2
  have hpair : List.Pairwise (fun a b => dkey a ≠ dkey b) b2 := dedupeGo_pairwise_ne _ []
  have hsplit : List.Pairwise (fun a b => dkey a ≠ dkey b) (b2.take s ++ b2.drop s) := by
    rwa [List.take_append_drop]
  exact (List.pairwise_append.mp hsplit).2.2 o1 m1b o2 m2c

theorem ajaxBranch_page2_empty (F : Nat → String) (P : String → List Offer)
    (T : String → Option Nat) (aR : Bool) (aH : String) (n : Nat) (tr0 : List Nat)
    (l : List Offer)
    (h : ((ajaxBranch F P T aR aH n 2 tr0).1).map (fun r => r.1) = some l) : l = [] := by
  unfold ajaxBranch at h
  by_cases ha : aR
  · simp [ha] at h
  · simp [ha] at h
    exact h

/-- Claim C1 (amended): for every query, mode and page size, the offers
returned for page 1 and for page 2 have pairwise distinct (title, url)
dedup keys; the identity-key version of the claim fails (see the
counterexample) because two records sharing a url but differing in title
survive dedup while sharing one identity key. -/
theorem search_pages_one_two_dedupkey_disjoint
    (mode : SearchMode) (F : Nat → String) (P : String → List Offer) (T : String → Option Nat)
    (hR aR : Bool) (ptr : List Nat) (aH : String) (q : Option String) (n : Int)
    (l1 l2 : List Offer)
    (hp1 : searchOffers mode F P T hR aR ptr aH q n 1 = some l1)
    (hp2 : searchOffers mode F P T hR aR ptr aH q n 2 = some l2)
    (o1 o2 : Offer) (m1 : o1 ∈ l1) (m2 : o2 ∈ l2) :
    dkey o1 ≠ dkey o2 := by
  unfold searchOffers searchOffersWithTotal searchFull at hp1 hp2
  by_cases hq : queryFalsy q
  · rw [if_pos hq] at hp1
    simp at hp1
    subst hp1
    simp at m1
  · rw [if_neg hq] at hp1 hp2
    have e1 : ((if ((1 : Int)) < 1 then (1 : Int) else 1)).toNat = 1 := by decide
    have e2 : ((if ((2 : Int)) < 1 then (1 : Int) else 2)).toNat = 2 := by decide
    rw [e1] at hp1
    rw [e2] at hp2
    set s := ((if n < 1 then (10 : Int) else n)).toNat with hs
    cases mode with
    | html =>
      by_cases hr : hR
      · simp [searchCore, hr] at hp1
      · simp only [searchCore, if_neg hr] at hp1 hp2
        simp at hp1 hp2
        subst hp1
        subst hp2
        exact fetch_range_pages_disjoint_dkeys F P T s o1 o2 m1 m2
    | auto =>
      by_cases hr : hR
      · simp only [searchCore, if_pos hr] at hp2
        have := ajaxBranch_page2_empty F P T aR aH s ptr l2 hp2
        subst this
        simp at m2
      · simp only [searchCore, if_neg hr] at hp1 hp2
        simp at hp1 hp2
        subst hp1
        subst hp2
        exact fetch_range_pages_disjoint_dkeys F P T s o1 o2 m1 m2
    | ajax =>
      simp only [searchCore] at hp2
      have := ajaxBranch_page2_empty F P T aR aH s [] l2 hp2
      subst this
      simp at m2

theorem parseListHtml_sorted (P : String → List Offer) (html : String) :
    List.Pairwise dateGe (parseListHtml P html) := by
  unfold parseListHtml
  split_ifs
  · exact List.Pairwise.nil
  · exact List.sorted_insertionSort dateGe (P html)

theorem ajaxFirstPage_sorted (F : Nat → String) (P : String → List Offer)
    (T : String → Option Nat) (aH : String) :
    List.Pairwise dateGe (ajaxFirstPage F P T aH).1 := by
  unfold ajaxFirstPage
  split_ifs
  · exact List.Pairwise.nil
  · exact parseListHtml_sorted P aH
  · exact parseListHtml_sorted P aH

theorem ajaxBranch_sorted (F : Nat → String) (P : String → List Offer)
    (T : String → Option Nat) (aR : Bool) (aH : String) (n p : Nat) (tr0 : List Nat)
    (l : List Offer)
    (h : ((ajaxBranch F P T aR aH n p tr0).1).map (fun r => r.1) = some l) :
    List.Pairwise dateGe l := by
  unfold ajaxBranch at h
  by_cases ha : aR = true
  · rw [if_pos ha] at h
    simp at h
  · rw [if_neg ha] at h
    by_cases hp : p = 1
    · simp only [hp, if_pos] at h
      simp at h
      subst h
      exact List.Pairwise.sublist (List.take_sublist n _) (ajaxFirstPage_sorted F P T aH)
    · simp only [if_neg hp] at h
      simp at h
      subst h
      exact List.Pairwise.nil

/-- Claim C3 (amended): every sequence returned by `search_offers` is
sorted with dates non-increasing under the Date Interpreter key; among
equal dates the order is the stable-sort order of accumulation, not
identity-key ascending (see the counterexample). -/
theorem search_offers_sorted_date_desc
    (mode : SearchMode) (F : Nat → String) (P : String → List Offer) (T : String → Option Nat)
    (hR aR : Bool) (ptr : List Nat) (aH : String) (q : Option String) (ps p : Int)
    (l : List Offer)
    (h : searchOffers mode F P T hR aR ptr aH q ps p = some l) :
    List.Pairwise dateGe l := by
  unfold searchOffers searchOffersWithTotal searchFull at h
  by_cases hq : queryFalsy q
  · rw [if_pos hq] at h
    simp at h
    subst h
    exact List.Pairwise.nil
  · rw [if_neg hq] at h
    cases mode with
    | html =>
      by_cases hr : hR
      · simp [searchCore, hr] at h
      · simp only [searchCore, if_neg hr] at h
        simp at h
        subst h
        simp only [htmlFetchRangeWithTotal, sortByDateDesc]
        exact List.sorted_insertionSort dateGe _
    | auto =>
      by_cases hr : hR
      · simp only [searchCore, if_pos hr] at h
        exact ajaxBranch_sorted F P T aR aH _ _ ptr l h
      · simp only [searchCore, if_neg hr] at h
        simp at h
        subst h
        simp only [htmlFetchRangeWithTotal, sortByDateDesc]
        exact List.sorted_insertionSort dateGe _
    | ajax =>
      simp only [searchCore] at h
      exact ajaxBranch_sorted F P T aR aH _ _ [] l h

/-- Claim C3 witness: a concrete run returning a nonempty sequence, on
which the theorem yields the non-increasing date order. -/
theorem search_offers_sorted_date_desc_witness :
    searchOffers SearchMode.html fixF2 fixP2 fixT false false [] "" (some "x") 2 1 =
      some [offC, offD] ∧ List.Pairwise dateGe [offC, offD] :=
  ⟨by decide,
    search_offers_sorted_date_desc SearchMode.html fixF2 fixP2 fixT false false [] ""
      (some "x") 2 1 [offC, offD] (by decide)⟩

/-- Claim C3 counterexample: a returned sequence with two equal-date
records whose identity keys are in strictly descending order, refuting
the identity-key-ascending tie-break. -/
theorem search_offers_equal_dates_key_order_cex :
    searchOffers SearchMode.html fixF2 fixP2 fixT false false [] "" (some "x") 2 1 =
      some [offC, offD] ∧
    sortKey offC = sortKey offD ∧ ¬ strLe (identityKey offC) (identityKey offD) := by
  decide

/-- Claim C1 witness: a concrete upstream on which pages 1 and 2 return
one offer each with distinct (title, url) dedup keys. -/
theorem search_pages_one_two_dedupkey_disjoint_witness :
    searchOffers SearchMode.html fixF fixP fixT false false [] "" (some "x") 1 1 = some [offA] ∧
    searchOffers SearchMode.html fixF fixP fixT false false [] "" (some "x") 1 2 = some [offB] ∧
    dkey offA ≠ dkey offB :=
  ⟨by decide, by decide,
    search_pages_one_two_dedupkey_disjoint SearchMode.html fixF fixP fixT false false [] ""
      (some "x") 1 [offA] [offB] (by decide) (by decide) offA offB (by decide) (by decide)⟩

/-- Claim C1 counterexample: with a fixed upstream where page 2 carries
a record sharing the url of the page 1 record but with another title,
page 1 returns `offA` and page 2 returns `offB` with equal identity
keys, so the identity-key sets of the two pages are not disjoint. -/
theorem search_pages_identity_key_overlap :
    searchOffers SearchMode.html fixF fixP fixT false false [] "" (some "x") 1 1 = some [offA] ∧
    searchOffers SearchMode.html fixF fixP fixT false false [] "" (some "x") 1 2 = some [offB] ∧
    identityKey offA = identityKey offB := by
  decide

/-- Claim C4 (amended): the aggregation keeps, for every (title, url)
dedup key, exactly the first-seen record with that key: filtering the
deduplicated aggregate by a key equals taking the first match from the
raw accumulated sequence.  Repeats that share an identity key but differ
in title or url are all kept (see the counterexample). -/
theorem aggregate_keeps_first_per_title_url (F : Nat → String) (P : String → List Offer)
    (T : String → Option Nat) (needed : Nat) (k : String × Option String) :
    ((htmlCollectUntil F P T needed).1).filter (fun x => decide (dkey x = k)) =
      ((collectedRaw F P T needed).filter (fun x => decide (dkey x = k))).take 1 := by
  have h := dedupeGo_filter_not_mem (collectedRaw F P T needed) [] k (by simp)
  simpa [htmlCollectUntil, dedupeTitleUrl, collectedRaw] using h

/-- Claim C4 counterexample: upstream page 2 repeats the page 1 item
with the same identity key (same url) but a different title; the
aggregated result keeps two entries for that identity key instead of
exactly one. -/
theorem aggregate_two_entries_same_identity_key :
    ((htmlCollectUntil fixF fixP fixT 2).1.filter
      (fun o => decide (identityKey o = "u"))).length = 2 ∧
    identityKey offA = identityKey offB ∧ offA.title ≠ offB.title := by
  decide

/-- Claim C5: in the default html mode, when the upstream fetch or parse
raises, `search_offers_with_total` reaches the end of the function and
returns Python None instead of a (list, total) pair, and `search_offers`
then raises a TypeError unpacking it (both modelled by `none`): the
serving path is not resilient as specified. -/
theorem search_offers_html_exception_none :
    searchOffersWithTotal SearchMode.html fixF fixP fixT true false [] "" (some "x") 10 1 =
      none ∧
    searchOffers SearchMode.html fixF fixP fixT true false [] "" (some "x") 10 1 = none :=
  ⟨rfl, rfl⟩

/-- Claim C6: `_parse_any_iso` is total by construction (every branch of
the source catches and falls back), and on empty or unparseable input
(both parsers fail) it returns the minimum representable timestamp,
which sorts below every other key value, so sorting never crashes and
such records sort last under the descending order. -/
theorem parse_any_iso_total_min (fromiso : String → Option Nat)
    (dp : String → Option (Option Nat)) (s : Option String)
    (h : ∀ str, s = some str → str ≠ "" →
      fromiso (normIso str) = none ∧
        (dp (normIso str) = none ∨ dp (normIso str) = some none)) :
    parseAnyIso fromiso dp s = 0 ∧
      ∀ (f2 : String → Option Nat) (d2 : String → Option (Option Nat)) (s2 : Option String),
        parseAnyIso fromiso dp s ≤ parseAnyIso f2 d2 s2 := by
  have h0 : parseAnyIso fromiso dp s = 0 := by
    cases s with
    | none => rfl
    | some str =>
      by_cases he : str = ""
      · simp [parseAnyIso, he]
      · obtain ⟨hf, hd⟩ := h str rfl he
        rcases hd with hd | hd <;> simp [parseAnyIso, he, hf, hd]
  exact ⟨h0, fun f2 d2 s2 => h0 ▸ Nat.zero_le _⟩

/-- Claim C6 witness: both parsers failing on a concrete garbage string
yields the minimum timestamp. -/
theorem parse_any_iso_total_min_witness :
    parseAnyIso fiNone dpNone (some "not a date") = 0 :=
  (parse_any_iso_total_min fiNone dpNone (some "not a date")
    (fun str hs _ => by
      cases hs
      exact ⟨rfl, Or.inl rfl⟩)).1

/-- Claim C7: evaluating `check_once` on one saved search with one new
offer shows the insert into the seen table and its commit are emitted
before any notification call, contradicting the required
mark-seen-only-after-notification-attempt ordering. -/
theorem check_once_marks_seen_before_notify :
    checkOnceTrace fixOffersFor fixSearches [] =
      [SchedEvent.insertSeen "1", SchedEvent.commitSeen,
       SchedEvent.emailSend, SchedEvent.ntfySend] := by
  decide

/-- Claim C9 (amended): a falsy (None or empty-string) query returns
([], 0) immediately with no upstream fetch; a page below 1 is floored to
1; a page_size below 1 is replaced with the default 10, not floored to 1
(see the counterexample, which also shows a blank nonempty query is not
short-circuited). -/
theorem search_normalization_floors (mode : SearchMode) (F : Nat → String)
    (P : String → List Offer) (T : String → Option Nat) (hR aR : Bool)
    (ptr : List Nat) (aH : String) (q : Option String) (ps p : Int) :
    (queryFalsy q = true →
      searchFull mode F P T hR aR ptr aH q ps p = (some ([], some 0), [])) ∧
    (ps < 1 →
      searchFull mode F P T hR aR ptr aH q ps p = searchFull mode F P T hR aR ptr aH q 10 p) ∧
    (p < 1 →
      searchFull mode F P T hR aR ptr aH q ps p = searchFull mode F P T hR aR ptr aH q ps 1) := by
  refine ⟨fun hq => by simp [searchFull, hq], fun hps => ?_, fun hp => ?_⟩
  · unfold searchFull
    rw [if_pos hps, if_neg (by decide : ¬ (10 : Int) < 1)]
  · unfold searchFull
    rw [if_pos hp, if_neg (by decide : ¬ (1 : Int) < 1)]

/-- Claim C9 witness: the three normalization clauses at concrete
inputs. -/
theorem search_normalization_floors_witness :
    searchFull SearchMode.html fixF3 fixP3 fixT false false [] "" none 5 3 =
      (some ([], some 0), []) ∧
    searchFull SearchMode.html fixF3 fixP3 fixT false false [] "" (some "x") 0 1 =
      searchFull SearchMode.html fixF3 fixP3 fixT false false [] "" (some "x") 10 1 ∧
    searchFull SearchMode.html fixF3 fixP3 fixT false false [] "" (some "x") 5 0 =
      searchFull SearchMode.html fixF3 fixP3 fixT false false [] "" (some "x") 5 1 :=
  ⟨(search_normalization_floors SearchMode.html fixF3 fixP3 fixT false false [] ""
      none 5 3).1 (by decide),
   (search_normalization_floors SearchMode.html fixF3 fixP3 fixT false false [] ""
      (some "x") 0 1).2.1 (by decide),
   (search_normalization_floors SearchMode.html fixF3 fixP3 fixT false false [] ""
      (some "x") 5 0).2.2 (by decide)⟩

/-- Claim C9 counterexample: with page_size 0 the result holds 10 items
(the default page size), not 1 as a floor of 1 would give; and a blank
one-space query is not short-circuited: an upstream fetch of page 1 is
attempted. -/
theorem search_page_size_floor_cex :
    (searchOffers SearchMode.html fixF3 fixP3 fixT false false [] "" (some "x") 0 1).map
      List.length = some 10 ∧
    (searchFull SearchMode.html emptyF fixP3 fixT false false [] "" (some " ") 5 1).2 = [1] := by
  decide

/-- Claim C10: an offer whose raw record has no extractable id is
excluded from the new-offer set of `check_once`, every inserted id comes
from an offer of that set, and every record shaped like the html list
parser output (title, url, location, employer, date) has no extractable
id. -/
theorem no_id_offer_invisible (seen : List String) (offers : List RawOffer)
    (off : RawOffer) (h : extractOfferId off = none) :
    off ∉ newItems seen offers ∧
    (∀ oid ∈ insertedIds seen offers, ∃ o2 ∈ newItems seen offers,
      extractOfferId o2 = some oid) ∧
    (∀ (render : Nat → String) (o : Offer), extractOfferId (offerToRaw render o) = none) := by
  refine ⟨?_, ?_, ?_⟩
  · intro hmem
    unfold newItems at hmem
    have h2 := (List.mem_filter.mp hmem).2
    rw [h] at h2
    simp at h2
  · intro oid hoid
    unfold insertedIds at hoid
    exact List.mem_filterMap.mp hoid
  · intro render o
    rfl

/-- Claim C10 witness: the parser-shaped record with title A is not a
new item and the parser record shape extracts no id. -/
theorem no_id_offer_invisible_witness :
    rawNoId ∉ newItems [] [rawNoId] ∧
      extractOfferId (offerToRaw toString (offN 0)) = none := by
  have h := no_id_offer_invisible [] [rawNoId] rawNoId (by decide)
  exact ⟨h.1, h.2.2 toString (offN 0)⟩

theorem extendLoop_stop (fetchPage : Nat → List Offer × Bool) (needed fuel : Nat)
    (recs : List Offer) (page : Nat) (exh : Bool) (tr : List Nat)
    (h : needed ≤ recs.length ∨ exh = true ∨ 500 ≤ page) :
    extendLoop fetchPage needed fuel recs page exh tr = ⟨recs, page, exh, tr⟩ := by
  cases fuel with
  | zero => rfl
  | succ fuel => rw [extendLoop, if_pos h]

theorem extendLoop_post (fetchPage : Nat → List Offer × Bool) (needed : Nat) :
    ∀ (fuel : Nat) (recs : List Offer) (page : Nat) (exh : Bool) (tr : List Nat),
    500 ≤ fuel + page →
    (needed ≤ (extendLoop fetchPage needed fuel recs page exh tr).recs.length ∨
      (extendLoop fetchPage needed fuel recs page exh tr).exh = true ∨
      500 ≤ (extendLoop fetchPage needed fuel recs page exh tr).page) := by
  intro fuel
  induction fuel with
  | zero =>
    intro recs page exh tr h
    rw [extendLoop]
    exact Or.inr (Or.inr (by simpa using h))
  | succ fuel ih =>
    intro recs page exh tr h
    by_cases hg : needed ≤ recs.length ∨ exh = true ∨ 500 ≤ page
    · rw [extendLoop_stop fetchPage needed _ _ _ _ _ hg]
      exact hg
    · rw [extendLoop, if_neg hg]
      exact ih _ (page + 1) _ _ (by omega)

/-- Claim C2 (spec-modelled): calling the cached search a second time
with the same query, page and page size, not forced and within the TTL,
issues no upstream page fetch at all and returns the same records as the
first call, served from the cached ranked sequence and last consumed
page index. -/
theorem cached_search_second_call_no_fetch (fetchPage : Nat → List Offer × Bool)
    (ttl : Nat) (q : String) (p n : Nat) (st0 : Store) (now now2 : Nat)
    (h : now2 - now ≤ ttl) :
    (searchCached fetchPage now2 ttl q p n false
        (searchCached fetchPage now ttl q p n false st0).2.1).2.2 = [] ∧
    (searchCached fetchPage now2 ttl q p n false
        (searchCached fetchPage now ttl q p n false st0).2.1).1 =
      (searchCached fetchPage now ttl q p n false st0).1 := by
  unfold searchCached getOrExtend
  set s0 : List Offer × Nat × Bool :=
    (match storeFind q st0 with
     | some e =>
       if false = false ∧ now - e.fetchedAt ≤ ttl then (e.records, e.lastPage, e.exhausted)
       else ([], 0, false)
     | none => ([], 0, false)) with hs0
  set o1 := extendLoop fetchPage (p * n) (500 - s0.2.1) s0.1 s0.2.1 s0.2.2 [] with ho1
  have hpost := extendLoop_post fetchPage (p * n) (500 - s0.2.1) s0.1 s0.2.1 s0.2.2 []
    (by omega)
  rw [← ho1] at hpost
  have hfind :
      storeFind q (storeWrite q ⟨o1.recs, o1.page, o1.exh, now⟩ st0) =
        some ⟨o1.recs, o1.page, o1.exh, now⟩ := by
    simp [storeFind, storeWrite]
  simp only [hfind, eq_self_iff_true, true_and, if_pos h]
  rw [extendLoop_stop fetchPage (p * n) _ _ _ _ _ hpost]
  exact ⟨rfl, rfl⟩

/-- Claim C2 witness: a concrete upstream and cache run in which the
second call fetches nothing and returns the first result. -/
theorem cached_search_second_call_no_fetch_witness :
    (searchCached zeroFetch 0 3600 "a" 1 2 false
        (searchCached zeroFetch 0 3600 "a" 1 2 false []).2.1).2.2 = [] ∧
    (searchCached zeroFetch 0 3600 "a" 1 2 false
        (searchCached zeroFetch 0 3600 "a" 1 2 false []).2.1).1 =
      (searchCached zeroFetch 0 3600 "a" 1 2 false []).1 :=
  cached_search_second_call_no_fetch zeroFetch 3600 "a" 1 2 [] 0 0 (by decide)
